import Mathlib

/-!
Shallow embedding of the `esquery-cli` command-line tool (a single-file Node
program).  The program locates source files, parses each into a syntax tree,
runs an AST selector query against the tree and prints matching locations,
optionally with a dedented code frame.

The embedding below translates the program's own functions:

* `dedent` — the tab-aware dedent routine (`function dedent(source)`),
  including the `/\r?\n/` line split, the "any line starts with a tab" unit
  choice, the minimum leading space-or-tab run, and the anchored
  `line.replace(new RegExp("^" + unit.repeat(min)), "")` strip;
* `nodeOutput` — the per-node formatting of the main loop, including the
  JavaScript `Array.prototype.slice` semantics (negative indices wrap) used in
  `sourceLines.slice(loc.start.line - linesAbove, loc.end.line + linesBelow)`;
* `processFile` — the body of the `for await` loop for one file: the
  try/catch around `queryFile`, the verbose match-count line and the per-node
  output lines;
* `queryFile` — read, parse and query a single file, with the filesystem,
  the parser and the selector engine modelled as oracles carried by
  `FileSpec` and by the run-level selector result (the selector string is
  parsed inside `esquery.query`, i.e. once per file, and a malformed selector
  makes every such call throw);
* `mainLoop` / `runMain` — the sequential file loop with its `didError`
  flag, `fileCount` counter, verbose summary line and final exit code.
-/

/-- Matches the character class `( |\t)` used by the dedent routine. -/
def isIndentChar (c : Char) : Bool := c == ' ' || c == '\t'

/-- Drops one leading carriage return from a reversed line accumulator,
mirroring how `/\r?\n/` absorbs a carriage return that immediately precedes a
newline. -/
def dropTrailingCR (acc : List Char) : List Char :=
  match acc with
  | c :: t => if c = '\r' then t else acc
  | [] => []

/-- Accumulator worker for `splitLines`; `acc` holds the current line
reversed. -/
def splitLinesAux : List Char → List Char → List (List Char)
  | [], acc => [acc.reverse]
  | c :: rest, acc =>
    if c = '\n' then (dropTrailingCR acc).reverse :: splitLinesAux rest []
    else splitLinesAux rest (c :: acc)

/-- Models `source.split(/\r?\n/)`: splits at every newline, absorbing a
carriage return that immediately precedes it. -/
def splitLines (s : List Char) : List (List Char) := splitLinesAux s []

/-- Length of the leading run of spaces and tabs of a line, i.e. the length of
the group captured by `line.match(/^(( |\t)*)/)[1]`. -/
def indentLen (l : List Char) : Nat := (l.takeWhile isIndentChar).length

/-- Models `Math.min(...lines.map(line => line.match(/^(( |\t)*)/)[1].length))`
over a (never empty) list of lines. -/
def minIndent (ls : List (List Char)) : Nat :=
  match ls with
  | [] => 0
  | l :: rest => (rest.map indentLen).foldl Nat.min (indentLen l)

/-- Boolean test that `pat` is an initial segment of `l`; used to model the
anchored regular expression `^<unit repeated n times>`. -/
def beginsWith : List Char → List Char → Bool
  | [], _ => true
  | _ :: _, [] => false
  | p :: ps, c :: cs => p == c && beginsWith ps cs

/-- Models `lines.some(line => line.startsWith("\t"))`. -/
def usesTabs (ls : List (List Char)) : Bool := ls.any fun l => beginsWith ['\t'] l

/-- The indent unit selected for the whole block: a tab when any line starts
with a tab, a single space otherwise. -/
def dedentUnit (ls : List (List Char)) : Char := if usesTabs ls then '\t' else ' '

/-- Models `line.replace(new RegExp("^" + unit.repeat(n)), "")`: an anchored
strip that removes exactly `n` unit characters when the line starts with them
and leaves the line unchanged otherwise. -/
def stripIndent (u : Char) (n : Nat) (l : List Char) : List Char :=
  if beginsWith (List.replicate n u) l then l.drop n else l

/-- Models `lines.join("\n")`. -/
def joinNL : List (List Char) → List Char
  | [] => []
  | [l] => l
  | l :: ls => l ++ '\n' :: joinNL ls

/-- The program's `dedent` function on character lists. -/
def dedent (s : List Char) : List Char :=
  let ls := splitLines s
  joinNL (ls.map (stripIndent (dedentUnit ls) (minIndent ls)))

/-- The program's `dedent` function on strings. -/
def dedentStr (s : String) : String := String.mk (dedent s.data)

/-- Every line of a block carries the same leading space-or-tab run; the
reading of "uniform (possibly zero) leading indentation" used by the
idempotence property. -/
def uniformIndent (s : List Char) : Bool :=
  match splitLines s with
  | [] => true
  | l :: ls => ls.all fun l2 => l2.takeWhile isIndentChar == l.takeWhile isIndentChar

/-- Command-line options consumed by `main`. -/
structure Argv where
  includeCodeFrame : Bool
  verbose : Bool

/-- A matched node as the formatter sees it: either `node.loc` is undefined,
or it carries a 1-based start line, a 0-based start column and a 1-based end
line. -/
inductive NodeM where
  | noLoc : NodeM
  | withLoc (startLine startCol endLine : Nat) : NodeM
deriving DecidableEq

/-- Models `Array.prototype.slice(a, b)`: negative indices count from the end
of the array, then the result is the elements from the clamped lower index up
to, but excluding, the clamped upper index. -/
def jsSlice {α : Type} (l : List α) (a b : Int) : List α :=
  let len : Int := Int.ofNat l.length
  let lo := if a < 0 then max (len + a) 0 else min a len
  let hi := if b < 0 then max (len + b) 0 else min b len
  (l.drop lo.toNat).take (hi - lo).toNat

/-- Models the verbose per-file count line
`console.log(`(dollar){file} (dollar){nodes.length} matches:`)`. -/
def countLine (file : String) (n : Nat) : String :=
  file ++ " " ++ toString n ++ " matches:"

/-- Models the per-node body of the main loop: the unknown-location message,
or the `file#line:column` location string, optionally followed by the
dedented code frame obtained from
`sourceLines.slice(loc.start.line - 2, loc.end.line + 3).join("\n")`. -/
def nodeOutput (argv : Argv) (file : String) (source : String) : NodeM → String
  | NodeM.noLoc => "match with unknown location"
  | NodeM.withLoc sl sc el =>
    let sourceLines := splitLines source.data
    let frame := dedent (joinNL (jsSlice sourceLines ((sl : Int) - 2) ((el : Int) + 3)))
    let location := file ++ "#" ++ toString sl ++ ":" ++ toString sc
    if argv.includeCodeFrame then location ++ ":" ++ "\n" ++ String.mk frame
    else location

/-- Outcome of `queryFile` for one file: the promise either rejects with an
error message or resolves with the matched nodes and the file's source
text. -/
inductive Outcome where
  | err (msg : String) : Outcome
  | ok (nodes : List NodeM) (source : String) : Outcome

/-- Boolean test that an outcome is an error. -/
def Outcome.isErr : Outcome → Bool
  | Outcome.err _ => true
  | Outcome.ok _ _ => false

/-- One file as the loop sees it, with the filesystem, the parser and the
selector engine modelled as oracles: the read result, the parse failure (if
any) and the nodes the selector engine would return for a valid selector. -/
structure FileSpec where
  name : String
  content : Except String String
  parseError : Option String
  queryNodes : List NodeM

/-- The program's `queryFile`: read the file, parse it, then run
`esquery.query`, which parses the selector string on every call and throws on
a malformed selector.  `selRes` is `Except.error m` when the user-supplied
selector is malformed. -/
def queryFile (selRes : Except String Unit) (f : FileSpec) : Outcome :=
  match f.content with
  | Except.error e => Outcome.err e
  | Except.ok src =>
    match f.parseError with
    | some e => Outcome.err e
    | none =>
      match selRes with
      | Except.error e => Outcome.err e
      | Except.ok _ => Outcome.ok f.queryNodes src

/-- One iteration of the `for await` loop: on a rejected `queryFile` the
error is logged to standard error and the `didError` flag set, with `nodes`
still the empty initial array; on success the verbose count line (only when
at least one node matched) and the per-node lines go to standard output.
Returns (stdout lines, stderr lines, didError contribution). -/
def processFile (argv : Argv) (file : String) : Outcome → List String × List String × Bool
  | Outcome.err msg => ([], [file ++ ": " ++ msg], true)
  | Outcome.ok nodes source =>
    ((if argv.verbose = true ∧ 0 < nodes.length then [countLine file nodes.length] else [])
        ++ nodes.map (nodeOutput argv file source),
      [], false)

/-- Observable side effects of one loop iteration in order: the file is always
read first; it is parsed only when the read resolves; `esquery.query` is
called only when the parse resolves. -/
inductive Event where
  | readFile (name : String) : Event
  | parseFile (name : String) : Event
  | queryCall (name : String) : Event
deriving DecidableEq

/-- The read/parse/query events one file contributes. -/
def fileEvents (f : FileSpec) : List Event :=
  Event.readFile f.name ::
    match f.content with
    | Except.error _ => []
    | Except.ok _ =>
      Event.parseFile f.name ::
        match f.parseError with
        | some _ => []
        | none => [Event.queryCall f.name]

/-- Accumulated state of the `for await` loop. -/
structure LoopResult where
  stdout : List String
  stderr : List String
  didError : Bool
  fileCount : Nat
  events : List Event

/-- The `for await (const file of files)` loop: per-file processing in
enumeration order, an unconditional `fileCount += 1` per iteration, and a
`didError` flag that is the disjunction of the per-file contributions. -/
def mainLoop (argv : Argv) (selRes : Except String Unit) : List FileSpec → LoopResult
  | [] => ⟨[], [], false, 0, []⟩
  | f :: fs =>
    let step := processFile argv f.name (queryFile selRes f)
    let rest := mainLoop argv selRes fs
    ⟨step.1 ++ rest.stdout, step.2.1 ++ rest.stderr, step.2.2 || rest.didError,
      rest.fileCount + 1, fileEvents f ++ rest.events⟩

/-- The verbose summary line `Queried (dollar){fileCount} files.`. -/
def summaryLine (n : Nat) : String := "Queried " ++ toString n ++ " files."

/-- Observable result of a whole run of `main` once the main loop has been
reached. -/
structure RunOutput where
  stdout : List String
  stderr : List String
  fileCount : Nat
  exitCode : Nat
  events : List Event

/-- The program's `main` from the start of the file loop: run the loop, print
the verbose summary, and exit with code 1 exactly when `didError` was set
(`process.exit(1)`), 0 otherwise. -/
def runMain (argv : Argv) (selRes : Except String Unit) (files : List FileSpec) : RunOutput :=
  let r := mainLoop argv selRes files
  ⟨r.stdout ++ (if argv.verbose then [summaryLine r.fileCount] else []),
    r.stderr, r.fileCount, if r.didError then 1 else 0, r.events⟩

/-- A file fails to read or parse exactly when its read rejects or its parse
rejects. -/
def readOrParseFailed (f : FileSpec) : Bool :=
  match f.content with
  | Except.error _ => true
  | Except.ok _ => f.parseError.isSome

/-! Helper lemmas about the line splitter and joiner. -/

/-- The splitter worker never returns an empty list of lines. -/
theorem splitLinesAux_ne_nil (t : List Char) : ∀ acc, splitLinesAux t acc ≠ [] := by
  induction t with
  | nil => intro acc; simp [splitLinesAux]
  | cons c rest ih =>
    intro acc
    simp only [splitLinesAux]
    by_cases h : c = '\n' <;> simp [h, ih]

/-- The splitter never returns an empty list of lines. -/
theorem splitLines_ne_nil (t : List Char) : splitLines t ≠ [] :=
  splitLinesAux_ne_nil t []

/-- Unfolds the joiner on a cons cell whose tail is nonempty. -/
theorem joinNL_cons_of_ne_nil (l : List Char) (ls : List (List Char)) (h : ls ≠ []) :
    joinNL (l :: ls) = l ++ '\n' :: joinNL ls := by
  cases ls with
  | nil => exact absurd rfl h
  | cons l' ls' => rfl

/-- The reversed-accumulator carriage-return chop is the identity when the
accumulator does not start with a carriage return. -/
theorem dropTrailingCR_of_head_ne (acc : List Char) (h : acc.head? ≠ some '\r') :
    dropTrailingCR acc = acc := by
  cases acc with
  | nil => rfl
  | cons c t =>
    simp only [List.head?] at h
    have hc : c ≠ '\r' := fun hc => h (by rw [hc])
    simp [dropTrailingCR, hc]

/-- Joining the lines of a carriage-return-free text restores the text. -/
theorem joinNL_splitLinesAux (t : List Char) (ht : ∀ c ∈ t, c ≠ '\r') :
    ∀ acc, acc.head? ≠ some '\r' → joinNL (splitLinesAux t acc) = acc.reverse ++ t := by
  induction t with
  | nil => intro acc _; simp [splitLinesAux, joinNL]
  | cons c rest ih =>
    intro acc hacc
    have hrest : ∀ ch ∈ rest, ch ≠ '\r' := fun ch hch => ht ch (List.mem_cons_of_mem _ hch)
    by_cases h : c = '\n'
    · subst h
      rw [show splitLinesAux ('\n' :: rest) acc
            = (dropTrailingCR acc).reverse :: splitLinesAux rest [] from by simp [splitLinesAux],
        dropTrailingCR_of_head_ne acc hacc,
        joinNL_cons_of_ne_nil _ _ (splitLinesAux_ne_nil rest []),
        ih hrest [] (by simp)]
      simp
    · have hc : c ≠ '\r' := ht c (List.mem_cons_self c rest)
      rw [show splitLinesAux (c :: rest) acc = splitLinesAux rest (c :: acc) from by
          simp [splitLinesAux, h],
        ih hrest (c :: acc) (by simp [hc])]
      simp

/-- Joining the lines of a carriage-return-free text restores the text. -/
theorem joinNL_splitLines (t : List Char) (ht : ∀ c ∈ t, c ≠ '\r') :
    joinNL (splitLines t) = t :=
  joinNL_splitLinesAux t ht [] (by simp)

/-- Every character of the carriage-return chop comes from the accumulator. -/
theorem mem_of_mem_dropTrailingCR (acc : List Char) (c : Char) (h : c ∈ dropTrailingCR acc) :
    c ∈ acc := by
  cases acc with
  | nil => simp [dropTrailingCR] at h
  | cons a t =>
    by_cases ha : a = '\r' <;> simp [dropTrailingCR, ha] at h
    · exact List.mem_cons_of_mem _ h
    · exact List.mem_cons.mpr h

/-- Every character of every produced line comes from the input text or the
accumulator. -/
theorem mem_of_mem_splitLinesAux (t : List Char) :
    ∀ acc l, l ∈ splitLinesAux t acc → ∀ c ∈ l, c ∈ t ∨ c ∈ acc := by
  induction t with
  | nil =>
    intro acc l hl c hc
    simp [splitLinesAux] at hl
    subst hl
    exact Or.inr (by simpa using hc)
  | cons a rest ih =>
    intro acc l hl c hc
    by_cases h : a = '\n'
    · subst h
      simp only [splitLinesAux, if_pos rfl] at hl
      rcases List.mem_cons.mp hl with h1 | h1
      · subst h1
        have : c ∈ dropTrailingCR acc := by simpa using hc
        exact Or.inr (mem_of_mem_dropTrailingCR acc c this)
      · rcases ih [] l h1 c hc with h2 | h2
        · exact Or.inl (List.mem_cons_of_mem _ h2)
        · simp at h2
    · simp only [splitLinesAux, if_neg h] at hl
      rcases ih (a :: acc) l hl c hc with h2 | h2
      · exact Or.inl (List.mem_cons_of_mem _ h2)
      · rcases List.mem_cons.mp h2 with h3 | h3
        · exact Or.inl (h3 ▸ List.mem_cons_self a rest)
        · exact Or.inr h3

/-- Every character of every line comes from the split text. -/
theorem mem_of_mem_splitLines (t : List Char) (l : List Char) (hl : l ∈ splitLines t) :
    ∀ c ∈ l, c ∈ t := by
  intro c hc
  rcases mem_of_mem_splitLinesAux t [] l hl c hc with h | h
  · exact h
  · simp at h

/-- Every character of a joined line list is a newline or comes from one of
the lines. -/
theorem mem_joinNL (ls : List (List Char)) (c : Char) (h : c ∈ joinNL ls) :
    c = '\n' ∨ ∃ l ∈ ls, c ∈ l := by
  induction ls with
  | nil => simp [joinNL] at h
  | cons l ls ih =>
    cases ls with
    | nil =>
      simp only [joinNL] at h
      exact Or.inr ⟨l, by simp, h⟩
    | cons l' ls' =>
      rw [joinNL_cons_of_ne_nil _ _ (by simp)] at h
      rcases List.mem_append.mp h with h1 | h1
      · exact Or.inr ⟨l, by simp, h1⟩
      · rcases List.mem_cons.mp h1 with h2 | h2
        · exact Or.inl h2
        · rcases ih h2 with h3 | ⟨l2, hl2, hc2⟩
          · exact Or.inl h3
          · exact Or.inr ⟨l2, List.mem_cons_of_mem _ hl2, hc2⟩

/-- The anchored strip only ever removes characters. -/
theorem mem_of_mem_stripIndent (u : Char) (n : Nat) (l : List Char) (c : Char)
    (h : c ∈ stripIndent u n l) : c ∈ l := by
  unfold stripIndent at h
  by_cases hb : beginsWith (List.replicate n u) l
  · rw [if_pos hb] at h; exact List.drop_subset n l h
  · rwa [if_neg hb] at h

/-- Dedenting a carriage-return-free text yields a carriage-return-free
text. -/
theorem dedent_no_cr (s : List Char) (hs : ∀ c ∈ s, c ≠ '\r') :
    ∀ c ∈ dedent s, c ≠ '\r' := by
  intro c hc
  unfold dedent at hc
  rcases mem_joinNL _ c hc with h | ⟨l, hl, hcl⟩
  · subst h; decide
  · rcases List.mem_map.mp hl with ⟨l0, hl0, rfl⟩
    exact hs c (mem_of_mem_splitLines s l0 hl0 c (mem_of_mem_stripIndent _ _ _ _ hcl))

/-- The leading space-or-tab run of a run of spaces followed by a chunk that
does not start with a space or tab is exactly the run of spaces. -/
theorem takeWhile_replicate_space (r : List Char)
    (hr : ∀ ch, r.head? = some ch → isIndentChar ch = false) :
    ∀ n : Nat, (List.replicate n ' ' ++ r).takeWhile isIndentChar = List.replicate n ' ' := by
  intro n
  induction n with
  | zero =>
    cases r with
    | nil => simp
    | cons c t =>
      have := hr c rfl
      simp [List.takeWhile, this]
  | succ n ih =>
    rw [List.replicate_succ, List.cons_append]
    simp only [List.takeWhile]
    have : isIndentChar ' ' = true := by decide
    rw [this]
    simp [ih]

/-! Helper lemmas about the minimum indentation and the anchored strip. -/

/-- A left fold by `Nat.min` is bounded by its initial value. -/
theorem foldl_min_le_init (ns : List Nat) : ∀ n : Nat, ns.foldl Nat.min n ≤ n := by
  induction ns with
  | nil => intro n; simp
  | cons m ns ih =>
    intro n
    calc ns.foldl Nat.min (Nat.min n m) ≤ Nat.min n m := ih (Nat.min n m)
    _ ≤ n := Nat.min_le_left n m

/-- A left fold by `Nat.min` is bounded by every list element. -/
theorem foldl_min_le_mem (ns : List Nat) : ∀ n m : Nat, m ∈ ns → ns.foldl Nat.min n ≤ m := by
  induction ns with
  | nil => intro n m h; simp at h
  | cons k ns ih =>
    intro n m h
    rcases List.mem_cons.mp h with h1 | h1
    · subst h1
      calc ns.foldl Nat.min (Nat.min n m) ≤ Nat.min n m := foldl_min_le_init ns _
      _ ≤ m := Nat.min_le_right n m
    · exact ih (Nat.min n k) m h1

/-- The computed minimum indentation is at most the indentation of every
line. -/
theorem minIndent_le (ls : List (List Char)) (l : List Char) (hl : l ∈ ls) :
    minIndent ls ≤ indentLen l := by
  cases ls with
  | nil => simp at hl
  | cons l0 rest =>
    rcases List.mem_cons.mp hl with h1 | h1
    · subst h1
      exact foldl_min_le_init _ _
    · exact foldl_min_le_mem _ _ _ (List.mem_map.mpr ⟨l, h1, rfl⟩)

/-- A shorter run of a repeated character is an initial segment of a longer
run followed by anything. -/
theorem beginsWith_replicate_of_le (u : Char) (r : List Char) :
    ∀ m k : Nat, m ≤ k → beginsWith (List.replicate m u) (List.replicate k u ++ r) = true := by
  intro m
  induction m with
  | zero => intro k _; simp [beginsWith]
  | succ m ih =>
    intro k hk
    cases k with
    | zero => exact absurd hk (by simp)
    | succ k =>
      rw [List.replicate_succ, List.replicate_succ, List.cons_append]
      simp only [beginsWith, beq_self_eq_true, Bool.true_and]
      exact ih k (Nat.le_of_succ_le_succ hk)

/-- The splitter commutes with prepending a newline-free chunk: the chunk
moves into the accumulator. -/
theorem splitLinesAux_append_no_nl (l : List Char) (hl : ∀ c ∈ l, c ≠ '\n') :
    ∀ t acc, splitLinesAux (l ++ t) acc = splitLinesAux t (l.reverse ++ acc) := by
  induction l with
  | nil => intro t acc; simp
  | cons c l ih =>
    intro t acc
    have hc : c ≠ '\n' := hl c (List.mem_cons_self c l)
    have hrest : ∀ ch ∈ l, ch ≠ '\n' := fun ch hch => hl ch (List.mem_cons_of_mem _ hch)
    rw [List.cons_append,
      show splitLinesAux (c :: (l ++ t)) acc = splitLinesAux (l ++ t) (c :: acc) from by
        simp [splitLinesAux, hc],
      ih hrest t (c :: acc)]
    simp

/-- Splitting a text whose first line is newline-free and does not end in a
carriage return detaches that first line. -/
theorem splitLines_append_nl (l t : List Char) (hl : ∀ c ∈ l, c ≠ '\n')
    (hcr : l.getLast? ≠ some '\x0d') :
    splitLines (l ++ '\n' :: t) = l :: splitLines t := by
  unfold splitLines
  rw [splitLinesAux_append_no_nl l hl ('\n' :: t) [],
    show splitLinesAux ('\n' :: t) (l.reverse ++ []) =
        (dropTrailingCR (l.reverse ++ [])).reverse :: splitLinesAux t [] from by
      simp [splitLinesAux]]
  rw [List.append_nil, dropTrailingCR_of_head_ne _ (by rwa [List.head?_reverse]),
    List.reverse_reverse]

/-- Splitting a newline-free text yields that text as the single line. -/
theorem splitLines_no_nl (l : List Char) (hl : ∀ c ∈ l, c ≠ '\n') :
    splitLines l = [l] := by
  unfold splitLines
  rw [show l = l ++ [] from by simp, splitLinesAux_append_no_nl l (by simpa using hl) [] []]
  simp [splitLinesAux]

/-! Helper lemmas about the main loop. -/

/-- The `didError` contribution of one iteration is exactly whether
`queryFile` rejected. -/
theorem processFile_didError (argv : Argv) (file : String) (o : Outcome) :
    (processFile argv file o).2.2 = o.isErr := by
  cases o <;> rfl

/-- A file that fails to read or to parse makes `queryFile` reject,
whatever the selector result. -/
theorem queryFile_isErr_of_failed (selRes : Except String Unit) (f : FileSpec)
    (h : readOrParseFailed f = true) : (queryFile selRes f).isErr = true := by
  unfold readOrParseFailed at h
  unfold queryFile
  cases hc : f.content with
  | error e => rfl
  | ok src =>
    rw [hc] at h
    cases hp : f.parseError with
    | some e => rfl
    | none => rw [hp] at h; simp [Option.isSome] at h

/-- A malformed selector makes `queryFile` reject on every file. -/
theorem queryFile_isErr_of_selError (m : String) (f : FileSpec) :
    (queryFile (Except.error m) f).isErr = true := by
  unfold queryFile
  cases f.content with
  | error e => rfl
  | ok src =>
    cases f.parseError with
    | some e => rfl
    | none => rfl

/-- The loop increments the file counter once per enumerated file. -/
theorem mainLoop_fileCount (argv : Argv) (selRes : Except String Unit) :
    ∀ files : List FileSpec, (mainLoop argv selRes files).fileCount = files.length := by
  intro files
  induction files with
  | nil => rfl
  | cons f fs ih => simp [mainLoop, ih]

/-- The loop's `didError` flag is set exactly when some file's `queryFile`
rejected. -/
theorem mainLoop_didError (argv : Argv) (selRes : Except String Unit) :
    ∀ files : List FileSpec,
      (mainLoop argv selRes files).didError
        = files.any fun f => (queryFile selRes f).isErr := by
  intro files
  induction files with
  | nil => rfl
  | cons f fs ih => simp [mainLoop, ih, processFile_didError]

/-- The loop's event trace is the concatenation of the per-file traces. -/
theorem mainLoop_events (argv : Argv) (selRes : Except String Unit) :
    ∀ files : List FileSpec,
      (mainLoop argv selRes files).events = (files.map fileEvents).flatten := by
  intro files
  induction files with
  | nil => rfl
  | cons f fs ih => simp [mainLoop, ih]

/-- Every enumerated file is read: its read event is in the loop's trace. -/
theorem readFile_mem_mainLoop_events (argv : Argv) (selRes : Except String Unit)
    (files : List FileSpec) (f : FileSpec) (hf : f ∈ files) :
    Event.readFile f.name ∈ (mainLoop argv selRes files).events := by
  rw [mainLoop_events]
  refine List.mem_flatten.mpr ⟨fileEvents f, List.mem_map.mpr ⟨f, hf, rfl⟩, ?_⟩
  unfold fileEvents
  exact List.mem_cons_self _ _

/-- Every readable file is parsed: its parse event is in the loop's trace. -/
theorem parseFile_mem_mainLoop_events (argv : Argv) (selRes : Except String Unit)
    (files : List FileSpec) (f : FileSpec) (hf : f ∈ files)
    (src : String) (hc : f.content = Except.ok src) :
    Event.parseFile f.name ∈ (mainLoop argv selRes files).events := by
  rw [mainLoop_events]
  refine List.mem_flatten.mpr ⟨fileEvents f, List.mem_map.mpr ⟨f, hf, rfl⟩, ?_⟩
  unfold fileEvents
  rw [hc]
  exact List.mem_cons_of_mem _ (List.mem_cons_self _ _)

/-! Helper lemmas about the printed line formats. -/

/-- A list ending in the suffix " matches:" ends with a colon. -/
theorem getLast_countLine (file : String) (n : Nat) :
    (countLine file n).data.getLast? = some ':' := by
  show (((file.data ++ " ".data) ++ (toString n).data) ++ " matches:".data).getLast? = some ':'
  rw [List.getLast?_append_of_ne_nil _ (by decide)]
  decide

/-- No per-node line equals the verbose per-file count line: the
unknown-location message ends in a different character, and a location line
differs from the count line right after the shared file name. -/
theorem nodeOutput_ne_countLine (argv : Argv) (file source : String) (nd : NodeM) (n : Nat) :
    nodeOutput argv file source nd ≠ countLine file n := by
  intro h
  have hd := congrArg String.data h
  cases nd with
  | noLoc =>
    have h2 := getLast_countLine file n
    simp only [nodeOutput] at hd
    rw [← hd] at h2
    simp at h2
  | withLoc sl sc el =>
    cases hif : argv.includeCodeFrame <;>
      simp only [nodeOutput, hif, Bool.false_eq_true, if_true, if_false,
        countLine, String.data_append, List.append_assoc] at hd <;>
    · have := List.append_cancel_left hd
      simp at this

/-- A list all of whose characters differ from the carriage return does not
end in one. -/
theorem getLast?_ne_cr (l : List Char) (h : ∀ ch ∈ l, ch ≠ '\r') :
    l.getLast? ≠ some '\r' := by
  intro hl
  rcases List.mem_getLast?_eq_getLast (l := l) (x := '\r') (by rw [hl]; rfl) with ⟨hne, heq⟩
  exact h _ (by rw [heq]; exact List.getLast_mem hne) rfl

/-- Characters of a space run followed by a line-break-free chunk are neither
newlines nor carriage returns. -/
theorem repline_chars (n : Nat) (r : List Char) (hr : ∀ ch ∈ r, ch ≠ '\n' ∧ ch ≠ '\r') :
    ∀ ch ∈ List.replicate n ' ' ++ r, ch ≠ '\n' ∧ ch ≠ '\r' := by
  intro ch hch
  rcases List.mem_append.mp hch with h1 | h1
  · rw [List.eq_of_mem_replicate h1]
    constructor <;> decide
  · exact hr ch h1

/-- A line that starts with at least one space does not start with a tab. -/
theorem beginsWith_tab_replicate_space (n : Nat) (hn : 0 < n) (r : List Char) :
    beginsWith ['\t'] (List.replicate n ' ' ++ r) = false := by
  cases n with
  | zero => exact absurd hn (by simp)
  | succ n =>
    rw [List.replicate_succ, List.cons_append]
    simp only [beginsWith]
    decide

/-- Dropping part of a leading character run leaves the rest of the run. -/
theorem drop_replicate_append (u : Char) (r : List Char) :
    ∀ m n : Nat, m ≤ n → (List.replicate n u ++ r).drop m = List.replicate (n - m) u ++ r := by
  intro m
  induction m with
  | zero => intro n _; simp
  | succ m ih =>
    intro n hn
    cases n with
    | zero => exact absurd hn (by simp)
    | succ n =>
      rw [List.replicate_succ, List.cons_append, List.drop_succ_cons,
        ih n (Nat.le_of_succ_le_succ hn), Nat.succ_sub_succ]

/-- C7: dedent removes exactly the minimum common leading indentation: on a
three-line space-indented block whose lines have leading-space counts 4, 2
and 6, the dedented result's lines have leading-space counts 2, 0 and 4, with
the remainder of each line unchanged. -/
theorem dedent_min_extraction (a b c : List Char)
    (ha : ∀ ch ∈ a, ch ≠ '\n' ∧ ch ≠ '\r') (hb : ∀ ch ∈ b, ch ≠ '\n' ∧ ch ≠ '\r')
    (hc : ∀ ch ∈ c, ch ≠ '\n' ∧ ch ≠ '\r')
    (ha2 : ∀ ch, a.head? = some ch → isIndentChar ch = false)
    (hb2 : ∀ ch, b.head? = some ch → isIndentChar ch = false)
    (hc2 : ∀ ch, c.head? = some ch → isIndentChar ch = false) :
    dedent ((List.replicate 4 ' ' ++ a) ++ '\n' ::
        ((List.replicate 2 ' ' ++ b) ++ '\n' :: (List.replicate 6 ' ' ++ c)))
      = (List.replicate 2 ' ' ++ a) ++ '\n' :: (b ++ '\n' :: (List.replicate 4 ' ' ++ c)) := by
  have hsA := repline_chars 4 a ha
  have hsB := repline_chars 2 b hb
  have hsC := repline_chars 6 c hc
  have h2 : splitLines ((List.replicate 2 ' ' ++ b) ++ '\n' :: (List.replicate 6 ' ' ++ c))
      = (List.replicate 2 ' ' ++ b) :: splitLines (List.replicate 6 ' ' ++ c) :=
    splitLines_append_nl _ _ (fun ch hch => (hsB ch hch).1)
      (getLast?_ne_cr _ (fun ch hch => (hsB ch hch).2))
  have h3 : splitLines (List.replicate 6 ' ' ++ c) = [List.replicate 6 ' ' ++ c] :=
    splitLines_no_nl _ (fun ch hch => (hsC ch hch).1)
  have hsplit : splitLines ((List.replicate 4 ' ' ++ a) ++ '\n' ::
      ((List.replicate 2 ' ' ++ b) ++ '\n' :: (List.replicate 6 ' ' ++ c)))
      = [List.replicate 4 ' ' ++ a, List.replicate 2 ' ' ++ b, List.replicate 6 ' ' ++ c] := by
    rw [splitLines_append_nl _ _ (fun ch hch => (hsA ch hch).1)
      (getLast?_ne_cr _ (fun ch hch => (hsA ch hch).2)), h2, h3]
  have htab : usesTabs [List.replicate 4 ' ' ++ a, List.replicate 2 ' ' ++ b,
      List.replicate 6 ' ' ++ c] = false := by
    simp only [usesTabs, List.any_cons, List.any_nil,
      beginsWith_tab_replicate_space 4 (by decide) a,
      beginsWith_tab_replicate_space 2 (by decide) b,
      beginsWith_tab_replicate_space 6 (by decide) c]
    decide
  have hunit : dedentUnit [List.replicate 4 ' ' ++ a, List.replicate 2 ' ' ++ b,
      List.replicate 6 ' ' ++ c] = ' ' := by
    rw [dedentUnit, htab]
    rfl
  have hi1 : indentLen (List.replicate 4 ' ' ++ a) = 4 := by
    rw [indentLen, takeWhile_replicate_space a ha2 4, List.length_replicate]
  have hi2 : indentLen (List.replicate 2 ' ' ++ b) = 2 := by
    rw [indentLen, takeWhile_replicate_space b hb2 2, List.length_replicate]
  have hi3 : indentLen (List.replicate 6 ' ' ++ c) = 6 := by
    rw [indentLen, takeWhile_replicate_space c hc2 6, List.length_replicate]
  have hmin : minIndent [List.replicate 4 ' ' ++ a, List.replicate 2 ' ' ++ b,
      List.replicate 6 ' ' ++ c] = 2 := by
    simp only [minIndent, List.map_cons, List.map_nil, hi1, hi2, hi3]
    decide
  have hs1 : stripIndent ' ' 2 (List.replicate 4 ' ' ++ a) = List.replicate 2 ' ' ++ a := by
    rw [stripIndent, if_pos (beginsWith_replicate_of_le ' ' a 2 4 (by decide)),
      drop_replicate_append ' ' a 2 4 (by decide)]
  have hs2 : stripIndent ' ' 2 (List.replicate 2 ' ' ++ b) = b := by
    rw [stripIndent, if_pos (beginsWith_replicate_of_le ' ' b 2 2 (by decide)),
      drop_replicate_append ' ' b 2 2 (by decide)]
    simp
  have hs3 : stripIndent ' ' 2 (List.replicate 6 ' ' ++ c) = List.replicate 4 ' ' ++ c := by
    rw [stripIndent, if_pos (beginsWith_replicate_of_le ' ' c 2 6 (by decide)),
      drop_replicate_append ' ' c 2 6 (by decide)]
  show joinNL ((splitLines _).map (stripIndent (dedentUnit (splitLines _))
    (minIndent (splitLines _)))) = _
  rw [hsplit, hunit, hmin]
  simp only [List.map_cons, List.map_nil, hs1, hs2, hs3]
  rfl

/-- Witness for C7 at a concrete three-line block. -/
theorem dedent_min_extraction_witness :
    dedent ((List.replicate 4 ' ' ++ ['x']) ++ '\n' ::
        ((List.replicate 2 ' ' ++ ['y']) ++ '\n' :: (List.replicate 6 ' ' ++ ['z'])))
      = (List.replicate 2 ' ' ++ ['x']) ++ '\n' :: (['y'] ++ '\n' :: (List.replicate 4 ' ' ++ ['z'])) :=
  dedent_min_extraction ['x'] ['y'] ['z'] (by decide) (by decide) (by decide)
    (by decide) (by decide) (by decide)

/-- C5 (amended): when every line's leading space-or-tab run consists solely
of the chosen indent unit, every line begins with at least the computed
minimum number of unit characters, so the anchored strip applies to every
line and removes exactly that many characters. -/
theorem dedent_anchored_strip (s : List Char)
    (h : ∀ l ∈ splitLines s,
      l.takeWhile isIndentChar = List.replicate (indentLen l) (dedentUnit (splitLines s))) :
    ∀ l ∈ splitLines s,
      beginsWith (List.replicate (minIndent (splitLines s)) (dedentUnit (splitLines s))) l
          = true ∧
        stripIndent (dedentUnit (splitLines s)) (minIndent (splitLines s)) l
          = l.drop (minIndent (splitLines s)) := by
  intro l hl
  have hle : minIndent (splitLines s) ≤ indentLen l := minIndent_le _ _ hl
  have hdecomp : l = List.replicate (indentLen l) (dedentUnit (splitLines s))
      ++ l.dropWhile isIndentChar := by
    conv_lhs => rw [← List.takeWhile_append_dropWhile (p := isIndentChar) (l := l)]
    rw [h l hl]
  have hbw : beginsWith (List.replicate (minIndent (splitLines s)) (dedentUnit (splitLines s)))
      l = true := by
    conv_lhs => rw [hdecomp]
    exact beginsWith_replicate_of_le _ _ _ _ hle
  exact ⟨hbw, by rw [stripIndent, if_pos hbw]⟩

/-- Witness for C5 (amended) on a concrete pure-space block. -/
theorem dedent_anchored_strip_witness :
    beginsWith (List.replicate (minIndent (splitLines "    a\n  b".data))
        (dedentUnit (splitLines "    a\n  b".data))) "    a".data = true ∧
      stripIndent (dedentUnit (splitLines "    a\n  b".data))
        (minIndent (splitLines "    a\n  b".data)) "    a".data
        = "    a".data.drop (minIndent (splitLines "    a\n  b".data)) :=
  dedent_anchored_strip "    a\n  b".data (by decide) "    a".data (by decide)

/-- Counterexample to C5 as stated: in the block consisting of the lines
"  a" and a tab-indented "b", the chosen unit is the tab and the computed
minimum is 1, yet the first line does not begin with a tab, so the anchored
strip leaves it unaffected. -/
theorem dedent_anchored_strip_ce :
    usesTabs (splitLines "  a\n\tb".data) = true ∧
      minIndent (splitLines "  a\n\tb".data) = 1 ∧
      [' ', ' ', 'a'] ∈ splitLines "  a\n\tb".data ∧
      beginsWith (List.replicate (minIndent (splitLines "  a\n\tb".data))
        (dedentUnit (splitLines "  a\n\tb".data))) [' ', ' ', 'a'] = false ∧
      stripIndent (dedentUnit (splitLines "  a\n\tb".data))
        (minIndent (splitLines "  a\n\tb".data)) [' ', ' ', 'a'] = [' ', ' ', 'a'] ∧
      dedentStr "  a\n\tb" = "  a\nb" := by decide

/-- Dedenting a carriage-return-free block whose lines all have empty leading
runs is the identity. -/
theorem dedent_of_zero_min (t : List Char) (hcr : ∀ c ∈ t, c ≠ '\r')
    (hz : ∀ l ∈ splitLines t, l.takeWhile isIndentChar = []) : dedent t = t := by
  obtain ⟨l0, hl0⟩ : ∃ l, l ∈ splitLines t := by
    cases hsp : splitLines t with
    | nil => exact absurd hsp (splitLines_ne_nil t)
    | cons l ls => exact ⟨l, hsp ▸ List.mem_cons_self l ls⟩
  have hmin : minIndent (splitLines t) = 0 := by
    have h1 := minIndent_le _ _ hl0
    have h2 : indentLen l0 = 0 := by rw [indentLen, hz l0 hl0]; rfl
    omega
  have hmap : (splitLines t).map
      (stripIndent (dedentUnit (splitLines t)) (minIndent (splitLines t))) = splitLines t := by
    rw [hmin]
    calc (splitLines t).map (stripIndent (dedentUnit (splitLines t)) 0)
        = (splitLines t).map id :=
          List.map_congr_left (fun l _ => by simp [stripIndent, beginsWith])
      _ = splitLines t := List.map_id _
  show joinNL ((splitLines t).map
    (stripIndent (dedentUnit (splitLines t)) (minIndent (splitLines t)))) = t
  rw [hmap, joinNL_splitLines t hcr]

/-- C6 (amended): dedent is idempotent on its own output for
carriage-return-free input whose dedented result has uniform zero leading
indentation (every line of the result has an empty leading space-or-tab
run). -/
theorem dedent_idem (s : List Char) (hcr : ∀ c ∈ s, c ≠ '\r')
    (hz : ∀ l ∈ splitLines (dedent s), l.takeWhile isIndentChar = []) :
    dedent (dedent s) = dedent s :=
  dedent_of_zero_min (dedent s) (dedent_no_cr s hcr) hz

/-- Witness for C6 (amended) on a concrete uniformly indented block. -/
theorem dedent_idem_witness :
    dedent (dedent "  a\n  b".data) = dedent "  a\n  b".data :=
  dedent_idem "  a\n  b".data (by decide) (by decide)

/-- Counterexample to C6 as stated: the block of lines tab-tab-space-space-"a"
and space-space-"b" dedents to a result whose two lines both carry the
uniform leading run of two spaces, yet dedenting that result strips those two
spaces and yields a different block. -/
theorem dedent_idem_ce :
    uniformIndent (dedent "\t\t  a\n  b".data) = true ∧
      dedentStr "\t\t  a\n  b" = "  a\n  b" ∧
      dedent (dedent "\t\t  a\n  b".data) ≠ dedent "\t\t  a\n  b".data := by decide

/-- C2 (evaluation at the failing input): on a six-line file, a match
spanning line 3 prints a frame that starts at line 2 — only one line above
the start, not the two lines promised by the code's own `linesAbove = 2` —
and a match starting at line 1 makes the slice's lower index negative, which
wraps to the end of the array and produces an empty frame instead of the
lines around the match. -/
theorem code_frame_slice_eval :
    nodeOutput ⟨true, false⟩ "a.js" "l1\nl2\nl3\nl4\nl5\nl6" (NodeM.withLoc 3 0 3)
        = "a.js#3:0:\nl2\nl3\nl4\nl5\nl6" ∧
      nodeOutput ⟨true, false⟩ "a.js" "l1\nl2\nl3\nl4\nl5\nl6" (NodeM.withLoc 1 0 1)
        = "a.js#1:0:\n" := by decide

/-- Counterexample to C1 as stated: with a malformed selector and one
well-formed readable file, the run still reads, parses and queries the file,
counts it, logs the selector error against the file on standard error, and
only then exits with code 1 — nothing fails fast before file processing. -/
theorem selector_fail_fast_ce :
    (runMain ⟨false, false⟩ (Except.error "bad")
        [⟨"a.js", Except.ok "const x = 1", none, []⟩]).events
        = [Event.readFile "a.js", Event.parseFile "a.js", Event.queryCall "a.js"] ∧
      (runMain ⟨false, false⟩ (Except.error "bad")
        [⟨"a.js", Except.ok "const x = 1", none, []⟩]).fileCount = 1 ∧
      (runMain ⟨false, false⟩ (Except.error "bad")
        [⟨"a.js", Except.ok "const x = 1", none, []⟩]).exitCode = 1 ∧
      (runMain ⟨false, false⟩ (Except.error "bad")
        [⟨"a.js", Except.ok "const x = 1", none, []⟩]).stderr = ["a.js: bad"] := by decide

/-- C1 (amended): a malformed selector is not rejected at the argument
layer; the run reaches the main loop, reads every enumerated file, parses
every readable one, keeps processing to the end of the enumeration, and
exits with code 1. -/
theorem invalid_selector_reaches_files (argv : Argv) (m : String) (files : List FileSpec)
    (hne : files ≠ []) :
    (runMain argv (Except.error m) files).exitCode = 1 ∧
      (runMain argv (Except.error m) files).fileCount = files.length ∧
      (∀ f ∈ files, Event.readFile f.name ∈ (runMain argv (Except.error m) files).events) ∧
      (∀ f ∈ files, ∀ src, f.content = Except.ok src →
        Event.parseFile f.name ∈ (runMain argv (Except.error m) files).events) := by
  refine ⟨?_, ?_, ?_, ?_⟩
  · simp only [runMain]
    rw [mainLoop_didError]
    cases files with
    | nil => exact absurd rfl hne
    | cons f fs => simp [queryFile_isErr_of_selError]
  · simp only [runMain]
    exact mainLoop_fileCount _ _ _
  · intro f hf
    simp only [runMain]
    exact readFile_mem_mainLoop_events _ _ _ _ hf
  · intro f hf src hsrc
    simp only [runMain]
    exact parseFile_mem_mainLoop_events _ _ _ _ hf src hsrc

/-- Witness for C1 (amended) on a concrete one-file run. -/
theorem invalid_selector_reaches_files_witness :
    (runMain ⟨false, false⟩ (Except.error "bad")
        [⟨"b.js", Except.ok "x", none, []⟩]).exitCode = 1 ∧
      (runMain ⟨false, false⟩ (Except.error "bad")
        [⟨"b.js", Except.ok "x", none, []⟩]).fileCount
        = [(⟨"b.js", Except.ok "x", none, []⟩ : FileSpec)].length :=
  ⟨(invalid_selector_reaches_files ⟨false, false⟩ "bad"
      [⟨"b.js", Except.ok "x", none, []⟩] (by simp)).1,
    (invalid_selector_reaches_files ⟨false, false⟩ "bad"
      [⟨"b.js", Except.ok "x", none, []⟩] (by simp)).2.1⟩

/-- Counterexample to C3 as stated: a run whose single file reads and parses
without error still exits with code 1 when the selector itself is malformed,
so exit code 1 is not equivalent to some file failing to read or parse. -/
theorem exit_code_read_parse_ce :
    readOrParseFailed ⟨"a.js", Except.ok "const x = 1", none, []⟩ = false ∧
      (runMain ⟨false, false⟩ (Except.error "bad")
        [⟨"a.js", Except.ok "const x = 1", none, []⟩]).exitCode = 1 := by decide

/-- C3 (amended): the exit code is 1 exactly when at least one enumerated
file's per-file processing rejected — a read failure, a parse failure or a
selector-query failure — and 0 otherwise. -/
theorem exit_code_iff_any_error (argv : Argv) (selRes : Except String Unit)
    (files : List FileSpec) :
    (runMain argv selRes files).exitCode
      = if files.any (fun f => (queryFile selRes f).isErr) then 1 else 0 := by
  simp only [runMain]
  rw [mainLoop_didError]

/-- C4: a file that fails to read or parse does not halt enumeration — the
counter still counts every enumerated file, every enumerated file is still
read — and the final exit code is 1. -/
theorem per_file_error_isolated (argv : Argv) (selRes : Except String Unit)
    (files : List FileSpec) (f : FileSpec) (hf : f ∈ files)
    (hfail : readOrParseFailed f = true) :
    (runMain argv selRes files).fileCount = files.length ∧
      (runMain argv selRes files).exitCode = 1 ∧
      ∀ g ∈ files, Event.readFile g.name ∈ (runMain argv selRes files).events := by
  refine ⟨?_, ?_, ?_⟩
  · simp only [runMain]
    exact mainLoop_fileCount _ _ _
  · simp only [runMain]
    rw [mainLoop_didError]
    have hany : files.any (fun f => (queryFile selRes f).isErr) = true :=
      List.any_eq_true.mpr ⟨f, hf, queryFile_isErr_of_failed selRes f hfail⟩
    rw [hany]
    rfl
  · intro g hg
    simp only [runMain]
    exact readFile_mem_mainLoop_events _ _ _ _ hg

/-- Witness for C4: a run with a failing first file and a succeeding second
file counts both and exits 1. -/
theorem per_file_error_isolated_witness :
    (runMain ⟨false, false⟩ (Except.ok ())
        [⟨"bad.js", Except.error "EACCES", none, []⟩,
          ⟨"ok.js", Except.ok "x", none, [NodeM.noLoc]⟩]).fileCount
        = [(⟨"bad.js", Except.error "EACCES", none, []⟩ : FileSpec),
            ⟨"ok.js", Except.ok "x", none, [NodeM.noLoc]⟩].length ∧
      (runMain ⟨false, false⟩ (Except.ok ())
        [⟨"bad.js", Except.error "EACCES", none, []⟩,
          ⟨"ok.js", Except.ok "x", none, [NodeM.noLoc]⟩]).exitCode = 1 :=
  ⟨(per_file_error_isolated ⟨false, false⟩ (Except.ok ()) _ _
      (List.mem_cons_self _ _) (by decide)).1,
    (per_file_error_isolated ⟨false, false⟩ (Except.ok ()) _ _
      (List.mem_cons_self _ _) (by decide)).2.1⟩

/-- C8: for a successfully processed file, the verbose per-file count line
appears in that file's standard output exactly when verbose mode is on and
the match count is positive, and a file with zero matches prints nothing at
all. -/
theorem verbose_count_line_iff (argv : Argv) (file : String) (nodes : List NodeM)
    (source : String) :
    (countLine file nodes.length ∈ (processFile argv file (Outcome.ok nodes source)).1
        ↔ argv.verbose = true ∧ 0 < nodes.length) ∧
      (nodes = [] → (processFile argv file (Outcome.ok nodes source)).1 = []) := by
  constructor
  · constructor
    · intro hmem
      simp only [processFile] at hmem
      rcases List.mem_append.mp hmem with h1 | h1
      · by_cases hcond : argv.verbose = true ∧ 0 < nodes.length
        · exact hcond
        · rw [if_neg hcond] at h1
          simp at h1
      · rcases List.mem_map.mp h1 with ⟨nd, _, hnd⟩
        exact absurd hnd (nodeOutput_ne_countLine argv file source nd nodes.length)
    · intro hcond
      simp only [processFile]
      apply List.mem_append.mpr
      left
      rw [if_pos hcond]
      exact List.mem_cons_self _ _
  · intro h
    subst h
    simp [processFile]

/-- Witness for C8: one match in verbose mode makes the count line appear. -/
theorem verbose_count_line_iff_witness :
    countLine "a.js" 1 ∈ (processFile ⟨false, true⟩ "a.js"
      (Outcome.ok [NodeM.noLoc] "")).1 :=
  (verbose_count_line_iff ⟨false, true⟩ "a.js" [NodeM.noLoc] "").1.mpr ⟨rfl, by decide⟩

/-- C9: the file counter counts every enumerated file, failed or not, and in
verbose mode the final summary line reports that total. -/
theorem file_counter_counts_all (argv : Argv) (selRes : Except String Unit)
    (files : List FileSpec) :
    (runMain argv selRes files).fileCount = files.length ∧
      (argv.verbose = true →
        (runMain argv selRes files).stdout.getLast? = some (summaryLine files.length)) := by
  constructor
  · simp only [runMain]
    exact mainLoop_fileCount _ _ _
  · intro hv
    simp only [runMain, hv, if_true]
    rw [mainLoop_fileCount]
    exact List.getLast?_concat _

/-- Witness for C9 on a run whose only file fails to read: verbose still
reports one queried file. -/
theorem file_counter_counts_all_witness :
    (runMain ⟨false, true⟩ (Except.ok ())
        [⟨"bad.js", Except.error "ENOENT", none, []⟩]).fileCount = 1 ∧
      (runMain ⟨false, true⟩ (Except.ok ())
        [⟨"bad.js", Except.error "ENOENT", none, []⟩]).stdout.getLast?
        = some (summaryLine 1) :=
  ⟨(file_counter_counts_all ⟨false, true⟩ (Except.ok ())
      [⟨"bad.js", Except.error "ENOENT", none, []⟩]).1,
    (file_counter_counts_all ⟨false, true⟩ (Except.ok ())
      [⟨"bad.js", Except.error "ENOENT", none, []⟩]).2 rfl⟩

/-- C10: a file whose read, parse or query rejects contributes nothing to
standard output — its node list stays the empty initial value, so neither a
count line nor node lines are printed — and contributes exactly one standard
error line carrying the file path and the message; in the loop this erroring
file leaves the standard output of the remaining files untouched. -/
theorem per_file_error_atomic (argv : Argv) (selRes : Except String Unit) (f : FileSpec)
    (msg : String) (h : queryFile selRes f = Outcome.err msg) :
    processFile argv f.name (queryFile selRes f) = ([], [f.name ++ ": " ++ msg], true) ∧
      ∀ fs : List FileSpec,
        (mainLoop argv selRes (f :: fs)).stdout = (mainLoop argv selRes fs).stdout ∧
          (mainLoop argv selRes (f :: fs)).stderr
            = (f.name ++ ": " ++ msg) :: (mainLoop argv selRes fs).stderr := by
  have hstep : processFile argv f.name (queryFile selRes f)
      = ([], [f.name ++ ": " ++ msg], true) := by
    rw [h]
    rfl
  refine ⟨hstep, ?_⟩
  intro fs
  constructor <;> simp [mainLoop, hstep]

/-- Witness for C10 on a file whose read rejects. -/
theorem per_file_error_atomic_witness :
    processFile ⟨false, false⟩ "a.js"
        (queryFile (Except.ok ()) ⟨"a.js", Except.error "ENOENT", none, []⟩)
      = ([], ["a.js" ++ ": " ++ "ENOENT"], true) :=
  (per_file_error_atomic ⟨false, false⟩ (Except.ok ())
    ⟨"a.js", Except.error "ENOENT", none, []⟩ "ENOENT" rfl).1
